import Mathlib

/-!
# Fault-injection experiment driver (gremlinservice/main.go)

A shallow embedding of `main`: the reverse service graph built from the edge
records, the worklist traversal that collects the upstream services of the
fault target, and the sequence of client calls made by one experiment run.

Go maps are association lists; ranging over a Go map enumerates it in an
unspecified order, which is an explicit argument (`RangeOrder`) here.
-/

namespace Gremlin

/-! ## Records and Go maps -/

/-- One CSV record, a Go `map[string]string`. -/
abbrev Row := List (String × String)

/-- Indexing `row[k]`: the stored value, or the zero value `""` for a missing key. -/
def Row.get : Row → String → String
  | [], _ => ""
  | (k', v) :: rest, k => if k' = k then v else Row.get rest k

/-- A Go `map[string]struct{}`: a duplicate-free list of its keys. -/
abbrev StrSet := List String

/-- The assignment `s[x] = struct{}{}`. -/
def StrSet.add (s : StrSet) (x : String) : StrSet :=
  if x ∈ s then s else s ++ [x]

/-- The reverse graph, a Go `map[string]map[string]struct{}`. -/
abbrev Mesh := List (String × StrSet)

/-- The two-valued lookup `v, ok := mesh[k]`. -/
def Mesh.get? : Mesh → String → Option StrSet
  | [], _ => none
  | (k', v) :: rest, k => if k' = k then some v else Mesh.get? rest k

/-- The assignment `mesh[k] = v`. -/
def Mesh.set : Mesh → String → StrSet → Mesh
  | [], k, v => [(k, v)]
  | (k', v') :: rest, k, v =>
    if k' = k then (k, v) :: rest else (k', v') :: Mesh.set rest k v

/-- The key `k` is present in the mesh. -/
def Mesh.has (mesh : Mesh) (k : String) : Prop := (mesh.get? k).isSome = true

instance (mesh : Mesh) (k : String) : Decidable (mesh.has k) := by
  unfold Mesh.has; infer_instance

/-- The value `mesh[k]` read as a set: a missing key gives the nil map, which has
no members and ranges over nothing. -/
def Mesh.preds (mesh : Mesh) (k : String) : StrSet := (mesh.get? k).getD []

/-- The body of the loop over the edge records (lines 62-71). -/
def addEdge (mesh : Mesh) (row : Row) : Mesh :=
  let start := row.get "start"
  let endSvc := row.get "end"
  let mesh1 := if (mesh.get? endSvc).isSome then mesh else mesh.set endSvc []
  mesh1.set endSvc ((mesh1.preds endSvc).add start)

/-- The reverse graph of the microservice mesh (lines 60-71). -/
def buildMesh (records : List Row) : Mesh := records.foldl addEdge []

/-- The edge relation of the records: some record has start `s` and end `e`. -/
def IsEdge (records : List Row) (s e : String) : Prop :=
  ∃ row ∈ records, row.get "start" = s ∧ row.get "end" = e

/-- An edge record with the two columns the driver reads. -/
def edgeRow (s e : String) : Row := [("start", s), ("end", e)]

/-! ## The upstream traversal (lines 73-93) -/

/-- The order in which each `range` over a Go map enumerates its keys: the `i`-th
range statement of the run yields some rearrangement of the stored keys. -/
structure RangeOrder where
  order : Nat → List String → List String
  perm : ∀ i l, (order i l).Perm l

/-- The variables of the traversal loop. `expanded` is a ghost log of the nodes
taken off the worklist, oldest first; the source keeps no such record. -/
structure Traversal where
  stack : List String
  upstreamSvcsMap : StrSet
  expanded : List String
deriving DecidableEq, Repr

/-- The state before the loop: the direct predecessors of the fault target are on
the worklist (lines 74-79). -/
def seed (ord : RangeOrder) (mesh : Mesh) (faultSvc : String) : Traversal :=
  ⟨ord.order 0 (mesh.preds faultSvc), [], []⟩

/-- One iteration of the loop body (lines 83-87) with `node` at the head of the
worklist and `rest` behind it. -/
def expand (ord : RangeOrder) (mesh : Mesh) (t : Traversal) (node : String)
    (rest : List String) : Traversal :=
  ⟨rest ++ ord.order (t.expanded.length + 1) (mesh.preds node),
   t.upstreamSvcsMap.add node,
   t.expanded ++ [node]⟩

/-- The loop `for len(stack) > 0` run for at most `fuel` iterations: `some` of the
final state when the worklist empties, `none` when the fuel runs out first. -/
def loop (ord : RangeOrder) (mesh : Mesh) : Nat → Traversal → Option Traversal
  | 0, t => if t.stack = [] then some t else none
  | fuel + 1, t =>
    match t.stack with
    | [] => some t
    | node :: rest => loop ord mesh fuel (expand ord mesh t node rest)

/-- The traversal from the fault target (lines 73-88). -/
def upstream (ord : RangeOrder) (mesh : Mesh) (faultSvc : String) (fuel : Nat) :
    Option Traversal :=
  loop ord mesh fuel (seed ord mesh faultSvc)

/-- The enumeration that yields the keys in stored order. -/
def storedOrder : RangeOrder := ⟨fun _ l => l, fun _ l => List.Perm.refl l⟩

/-- The enumeration that yields the keys in reverse stored order. -/
def reverseOrder : RangeOrder := ⟨fun _ l => l.reverse, fun _ l => List.reverse_perm l⟩

/-- A node has a directed path of length at least one into the target. -/
def Reaches (records : List Row) (s t : String) : Prop :=
  Relation.TransGen (IsEdge records) s t

/-! ## The experiment run (lines 28-138) -/

/-- A Go `error` value, by its message. -/
abbrev GoError := String

/-- The phase argument of `QueryChunks`. -/
inductive Phase
  | Before
  | After
deriving DecidableEq, Repr

/-- The calls a run makes, in the order it makes them. `Chunks` and `Stats` are the
result types of `QueryChunks` and `MeasureSuccessRate`, declared outside this file.
`applyFault` carries the instant at which the call is made, `sleep` the duration
asked of `time.Sleep`. -/
inductive Event (Chunks Stats : Type)
  | readCSV (path : String)
  | queryChunks (id : String) (phase : Phase) (svcs : List String) (start : Int)
  | measureSuccessRate (chunks : Chunks)
  | info (msg : String)
  | printf (stats : Stats)
  | applyFault (svc : String) (instant : Int)
  | sleep (d : Int)
  | deleteFault (svc : String)
deriving DecidableEq, Repr

/-- How a run ends: `main` returns; `sugar.Fatal` logs the error and exits the
process; the runtime panics on an index out of range; or the traversal loop is
still running when the fuel is spent. -/
inductive Outcome
  | returned
  | fatal (err : GoError)
  | panicIndexOutOfRange
  | looping
deriving DecidableEq, Repr

/-- What the run did: its calls in order and how it ended. -/
structure Run (Chunks Stats : Type) where
  trace : List (Event Chunks Stats)
  outcome : Outcome

/-- Everything outside `main`: the results of the helpers and clients it calls, the
enumeration order of Go maps, and the clock, in nanoseconds since the epoch.
`nowId` is the reading of line 40. `elapsed k` is the time that passes during the
`k`-th stretch of the run after that: 0 up to the reading of line 96, 1 from there to
the call of `ApplyFault`, 2 from there to the call of `time.Sleep`, 3 from the return
of `time.Sleep` to the reading of line 120. `sleepAdvance d` is the time that passes
during a call `time.Sleep(d)`. -/
structure Env (Chunks Stats : Type) where
  readCSV : String → Except GoError (List Row)
  queryChunks : String → Phase → List String → Int → Except GoError Chunks
  measureSuccessRate : Chunks → Except GoError Stats
  applyFault : String → Option GoError
  deleteFault : String → Option GoError
  range : RangeOrder
  nowId : Int
  elapsed : Nat → Int
  sleepAdvance : Int → Int

/-- The clock read by `time.Now()` at line 96. -/
def Env.nowBefore {Chunks Stats : Type} (env : Env Chunks Stats) : Int :=
  env.nowId + env.elapsed 0

/-- The clock when `ApplyFault` is called (line 111). -/
def Env.applyAt {Chunks Stats : Type} (env : Env Chunks Stats) : Int :=
  env.nowBefore + env.elapsed 1

/-- The clock when `time.Sleep` is called (line 117). -/
def Env.sleepAt {Chunks Stats : Type} (env : Env Chunks Stats) : Int :=
  env.applyAt + env.elapsed 2

/-- The clock when the call `time.Sleep(d)` made at `sleepAt` returns. -/
def Env.wakeAt {Chunks Stats : Type} (env : Env Chunks Stats) (d : Int) : Int :=
  env.sleepAt + env.sleepAdvance d

/-- The clock read by `time.Now()` at line 120, when the sleep returned at `wake`. -/
def Env.nowAfter {Chunks Stats : Type} (env : Env Chunks Stats) (wake : Int) : Int :=
  wake + env.elapsed 3

/-- The duration `time.Second`, in nanoseconds. -/
def second : Int := 1000000000

/-- The clock never goes backwards (no stretch of the run takes negative time), and
a call `time.Sleep(d)` advances it by at least `d`. -/
def Env.ClockOk {Chunks Stats : Type} (env : Env Chunks Stats) : Prop :=
  (∀ k, 0 ≤ env.elapsed k) ∧ ∀ d, d ≤ env.sleepAdvance d

/-- The window start `now.Add(-30 * time.Second)` handed to `QueryChunks`. -/
def windowStart (now : Int) : Int := now + -30 * second

/-- Steps 7-9 (lines 119-137): the After query, the fault removal and the second
summary, after the calls in `tr`; `wake` is the clock when the sleep returned. -/
def observe {Chunks Stats : Type} (env : Env Chunks Stats) (id faultSvc : String)
    (upstreamSvcs : List String) (tr : List (Event Chunks Stats)) (wake : Int) :
    Run Chunks Stats :=
  let tr := tr ++ [.queryChunks id .After upstreamSvcs (windowStart (env.nowAfter wake))]
  match env.queryChunks id .After upstreamSvcs (windowStart (env.nowAfter wake)) with
  | .error err => ⟨tr, .fatal err⟩
  | .ok chunks =>
    let tr := tr ++ [.info "Deleting fault injection...", .deleteFault faultSvc]
    match env.deleteFault faultSvc with
    | some err => ⟨tr, .fatal err⟩
    | none =>
      let tr := tr ++ [.measureSuccessRate chunks]
      match env.measureSuccessRate chunks with
      | .error err => ⟨tr, .fatal err⟩
      | .ok afterNodes =>
        ⟨tr ++ [.info "Stats after fault injection:", .printf afterNodes], .returned⟩

/-- Steps 3-9 (lines 95-137): the Before query and summary, the fault injection and
the wait, then `observe`. -/
def experiment {Chunks Stats : Type} (env : Env Chunks Stats) (id faultSvc : String)
    (upstreamSvcs : List String) (tr : List (Event Chunks Stats)) : Run Chunks Stats :=
  let tr := tr ++ [.queryChunks id .Before upstreamSvcs (windowStart env.nowBefore)]
  match env.queryChunks id .Before upstreamSvcs (windowStart env.nowBefore) with
  | .error err => ⟨tr, .fatal err⟩
  | .ok chunks =>
    let tr := tr ++ [.measureSuccessRate chunks]
    match env.measureSuccessRate chunks with
    | .error err => ⟨tr, .fatal err⟩
    | .ok beforeNodes =>
      let tr := tr ++ [.info "Stats before fault injection:", .printf beforeNodes,
        .info "Applying fault injection...", .applyFault faultSvc env.applyAt]
      match env.applyFault faultSvc with
      | some err => ⟨tr, .fatal err⟩
      | none =>
        let d := 30 * second
        let tr := tr ++ [.info "Waiting 30 seconds for experiment to run...", .sleep d]
        observe env id faultSvc upstreamSvcs tr (env.wakeAt d)

/-- The whole of `main`, with at most `fuel` iterations of the traversal loop. -/
def main {Chunks Stats : Type} (env : Env Chunks Stats) (fuel : Nat) : Run Chunks Stats :=
  let id := toString (env.nowId / second)
  let tr := [.readCSV "csv/services"]
  match env.readCSV "csv/services" with
  | .error err => ⟨tr, .fatal err⟩
  | .ok [] => ⟨tr, .panicIndexOutOfRange⟩
  | .ok (row :: _) =>
    let faultSvc := row.get "service"
    let tr := tr ++ [.readCSV "csv/edges"]
    match env.readCSV "csv/edges" with
    | .error err => ⟨tr, .fatal err⟩
    | .ok records =>
      let mesh := buildMesh records
      match upstream env.range mesh faultSvc fuel with
      | none => ⟨tr, .looping⟩
      | some t =>
        let upstreamSvcs := env.range.order (t.expanded.length + 1) t.upstreamSvcsMap
        experiment env id faultSvc upstreamSvcs tr

/-- A sample environment: `services` is the content of `csv/services`, `edges` that
of `csv/edges`; `afterQuery` is the result of the After query; every other call
succeeds. Chunks and stats are plain numbers here. The Before query is made at
second 40, `ApplyFault` is called at second 41, the sleep lasts from second 42 to
second 72 and the After query is made at second 73. -/
def sampleEnv (services edges : List Row) (afterQuery : Except GoError Nat) : Env Nat Nat where
  readCSV := fun path => if path = "csv/services" then .ok services else .ok edges
  queryChunks := fun _ phase _ _ => if phase = Phase.Before then .ok 7 else afterQuery
  measureSuccessRate := fun chunks => .ok chunks
  applyFault := fun _ => none
  deleteFault := fun _ => none
  range := storedOrder
  nowId := 0
  elapsed := fun k => if k = 0 then 40 * second else second
  sleepAdvance := fun d => d

/-- The calls made before the experiment proper: the two CSV reads. -/
def csvReads (Chunks Stats : Type) : List (Event Chunks Stats) :=
  [.readCSV "csv/services", .readCSV "csv/edges"]

/-- The calls of steps 3-5 up to and including `ApplyFault`. -/
def baselineCalls {Chunks Stats : Type} (env : Env Chunks Stats) (id faultSvc : String)
    (upstreamSvcs : List String) (chunks : Chunks) (stats : Stats) : List (Event Chunks Stats) :=
  [.queryChunks id .Before upstreamSvcs (windowStart env.nowBefore),
   .measureSuccessRate chunks, .info "Stats before fault injection:", .printf stats,
   .info "Applying fault injection...", .applyFault faultSvc env.applyAt]

/-- The calls of steps 6-7 up to and including the After query. -/
def waitCalls {Chunks Stats : Type} (env : Env Chunks Stats) (id : String)
    (upstreamSvcs : List String) : List (Event Chunks Stats) :=
  [.info "Waiting 30 seconds for experiment to run...", .sleep (30 * second),
   .queryChunks id .After upstreamSvcs (windowStart (env.nowAfter (env.wakeAt (30 * second))))]

/-- A run of the experiment proper, by the step at which it stops. -/
inductive Shape {Chunks Stats : Type} (env : Env Chunks Stats) (id faultSvc : String)
    (upstreamSvcs : List String) : Run Chunks Stats → Prop
  | beforeQueryFailed (err : GoError)
      (hq : env.queryChunks id .Before upstreamSvcs (windowStart env.nowBefore) = .error err) :
      Shape env id faultSvc upstreamSvcs
        ⟨csvReads Chunks Stats ++
          [.queryChunks id .Before upstreamSvcs (windowStart env.nowBefore)], .fatal err⟩
  | beforeSummaryFailed (chunks : Chunks) (err : GoError)
      (hq : env.queryChunks id .Before upstreamSvcs (windowStart env.nowBefore) = .ok chunks)
      (hm : env.measureSuccessRate chunks = .error err) :
      Shape env id faultSvc upstreamSvcs
        ⟨csvReads Chunks Stats ++
          [.queryChunks id .Before upstreamSvcs (windowStart env.nowBefore),
           .measureSuccessRate chunks], .fatal err⟩
  | applyFailed (chunks : Chunks) (stats : Stats) (err : GoError)
      (hq : env.queryChunks id .Before upstreamSvcs (windowStart env.nowBefore) = .ok chunks)
      (hm : env.measureSuccessRate chunks = .ok stats)
      (ha : env.applyFault faultSvc = some err) :
      Shape env id faultSvc upstreamSvcs
        ⟨csvReads Chunks Stats ++ baselineCalls env id faultSvc upstreamSvcs chunks stats,
          .fatal err⟩
  | afterQueryFailed (chunks : Chunks) (stats : Stats) (err : GoError)
      (hq : env.queryChunks id .Before upstreamSvcs (windowStart env.nowBefore) = .ok chunks)
      (hm : env.measureSuccessRate chunks = .ok stats)
      (ha : env.applyFault faultSvc = none)
      (hqa : env.queryChunks id .After upstreamSvcs (windowStart (env.nowAfter (env.wakeAt (30 * second)))) = .error err) :
      Shape env id faultSvc upstreamSvcs
        ⟨csvReads Chunks Stats ++ baselineCalls env id faultSvc upstreamSvcs chunks stats ++
          waitCalls env id upstreamSvcs, .fatal err⟩
  | cleaned (chunks : Chunks) (stats : Stats) (chunks2 : Chunks)
      (tail : List (Event Chunks Stats)) (outcome : Outcome)
      (hq : env.queryChunks id .Before upstreamSvcs (windowStart env.nowBefore) = .ok chunks)
      (hm : env.measureSuccessRate chunks = .ok stats)
      (ha : env.applyFault faultSvc = none)
      (hqa : env.queryChunks id .After upstreamSvcs (windowStart (env.nowAfter (env.wakeAt (30 * second)))) = .ok chunks2)
      (htail : ∀ e ∈ tail, e = Event.measureSuccessRate chunks2 ∨ (∃ msg, e = Event.info msg) ∨
        ∃ stats2, e = Event.printf stats2)
      (hout : outcome = .returned ∨ ∃ err, outcome = .fatal err) :
      Shape env id faultSvc upstreamSvcs
        ⟨csvReads Chunks Stats ++ baselineCalls env id faultSvc upstreamSvcs chunks stats ++
          waitCalls env id upstreamSvcs ++
          [.info "Deleting fault injection...", .deleteFault faultSvc] ++ tail, outcome⟩

/-- The facts about a traversal state of the graph built from `records`, towards
`target`, that give the exact content of the result. -/
structure Inv (records : List Row) (target : String) (t : Traversal) : Prop where
  stack_sound : ∀ x ∈ t.stack, Reaches records x target
  set_sound : ∀ x ∈ t.upstreamSvcsMap, Reaches records x target
  direct : ∀ x, IsEdge records x target → x ∈ t.upstreamSvcsMap ∨ x ∈ t.stack
  closed : ∀ y ∈ t.upstreamSvcsMap, ∀ x, IsEdge records x y →
    x ∈ t.upstreamSvcsMap ∨ x ∈ t.stack
  set_log : ∀ x, x ∈ t.upstreamSvcsMap ↔ x ∈ t.expanded
  set_nodup : t.upstreamSvcsMap.Nodup

/-- A run that stops before the experiment proper, by the step at which it stops:
a CSV read fails, the services file is empty, or the traversal is still running. -/
inductive Early {Chunks Stats : Type} (env : Env Chunks Stats) (fuel : Nat) :
    Run Chunks Stats → Prop
  | servicesFailed (err : GoError) (h1 : env.readCSV "csv/services" = .error err) :
      Early env fuel ⟨[.readCSV "csv/services"], .fatal err⟩
  | servicesEmpty (h1 : env.readCSV "csv/services" = .ok []) :
      Early env fuel ⟨[.readCSV "csv/services"], .panicIndexOutOfRange⟩
  | edgesFailed (row : Row) (rest : List Row) (err : GoError)
      (h1 : env.readCSV "csv/services" = .ok (row :: rest))
      (h2 : env.readCSV "csv/edges" = .error err) :
      Early env fuel ⟨csvReads Chunks Stats, .fatal err⟩
  | traversing (row : Row) (rest records : List Row)
      (h1 : env.readCSV "csv/services" = .ok (row :: rest))
      (h2 : env.readCSV "csv/edges" = .ok records)
      (h3 : upstream env.range (buildMesh records) (row.get "service") fuel = none) :
      Early env fuel ⟨csvReads Chunks Stats, .looping⟩

/-- The event is a call of `ApplyFault`. -/
def Event.isApplyFault {Chunks Stats : Type} : Event Chunks Stats → Bool
  | .applyFault _ _ => true
  | _ => false

/-- The run calls neither `ApplyFault` nor `DeleteFault`. -/
def Run.NoFaultCall {Chunks Stats : Type} (run : Run Chunks Stats) : Prop :=
  ∀ svc, (∀ instant, Event.applyFault svc instant ∉ run.trace) ∧
    Event.deleteFault svc ∉ run.trace

/-! ## Sample inputs -/

/-- The services file naming "C" as the most frequent service. -/
def servicesC : List Row := [[("service", "C")]]

/-- The edge records A→B, B→C, X→C. -/
def chainEdges : List Row := [edgeRow "A" "B", edgeRow "B" "C", edgeRow "X" "C"]

/-- The edge records A→B, A→X, B→C, X→C: A reaches C along two paths. -/
def diamondEdges : List Row := [edgeRow "A" "B", edgeRow "A" "X", edgeRow "B" "C", edgeRow "X" "C"]

/-- A run on the chain mesh whose After query fails with "boom". -/
def boomEnv : Env Nat Nat := sampleEnv servicesC chainEdges (.error "boom")

/-- A run whose services file has no records. -/
def noServicesEnv : Env Nat Nat := sampleEnv [] chainEdges (.ok 9)

/-- A run on the chain mesh in which every call succeeds. -/
def okEnv : Env Nat Nat := sampleEnv servicesC chainEdges (.ok 9)

/-- A run whose edges file has no records and whose target is "Z". -/
def noEdgesEnv : Env Nat Nat := sampleEnv [[("service", "Z")]] [] (.ok 9)

/-! ## Single paths -/

/-- No node has two different paths into the target: the target is on no cycle, and
of the edges leaving any one node at most one leads to the target or to a node with
a path into it. -/
def SinglePath (records : List Row) (target : String) : Prop :=
  ¬ Reaches records target target ∧
  ∀ s e1 e2, IsEdge records s e1 → IsEdge records s e2 →
    (e1 = target ∨ Reaches records e1 target) →
    (e2 = target ∨ Reaches records e2 target) → e1 = e2

/-- The facts about a traversal state that, on a mesh with single paths, keep every
node from entering the worklist twice. -/
structure TreeInv (records : List Row) (target : String) (t : Traversal) : Prop where
  sound : ∀ x ∈ t.expanded ++ t.stack, Reaches records x target
  nodup : (t.expanded ++ t.stack).Nodup
  origin : ∀ x ∈ t.expanded ++ t.stack,
    IsEdge records x target ∨ ∃ y ∈ t.expanded, IsEdge records x y

/-! ## Go maps: lookup after assignment -/

theorem StrSet.mem_add (s : StrSet) (x y : String) : y ∈ s.add x ↔ y ∈ s ∨ y = x := by
  unfold StrSet.add
  split
  · constructor
    · exact Or.inl
    · rintro (h | rfl)
      · exact h
      · assumption
  · simp

theorem StrSet.nodup_add (s : StrSet) (x : String) (h : s.Nodup) : (s.add x).Nodup := by
  unfold StrSet.add
  split
  · exact h
  · rename_i hx
    rw [List.nodup_append]
    refine ⟨h, List.nodup_singleton x, ?_⟩
    intro a ha hb
    simp only [List.mem_singleton] at hb
    exact hx (hb ▸ ha)

theorem StrSet.add_ne_nil (s : StrSet) (x : String) : s.add x ≠ [] := by
  unfold StrSet.add
  split
  · rename_i hx
    intro h
    rw [h] at hx
    simp at hx
  · simp

theorem Mesh.get?_set_self (mesh : Mesh) (k : String) (v : StrSet) :
    (mesh.set k v).get? k = some v := by
  induction mesh with
  | nil => simp [Mesh.set, Mesh.get?]
  | cons p rest ih =>
    obtain ⟨k', v'⟩ := p
    by_cases h : k' = k
    · simp [Mesh.set, Mesh.get?, h]
    · simp [Mesh.set, Mesh.get?, h, ih]

theorem Mesh.get?_set_ne (mesh : Mesh) (k j : String) (v : StrSet) (hne : j ≠ k) :
    (mesh.set k v).get? j = mesh.get? j := by
  induction mesh with
  | nil =>
    have : ¬ k = j := fun h => hne h.symm
    simp [Mesh.set, Mesh.get?, this]
  | cons p rest ih =>
    obtain ⟨k', v'⟩ := p
    by_cases h : k' = k
    · have : ¬ k = j := fun h => hne h.symm
      subst h
      simp [Mesh.set, Mesh.get?, this]
    · by_cases h2 : k' = j
      · subst h2
        simp [Mesh.set, Mesh.get?, h]
      · simp [Mesh.set, Mesh.get?, h, h2, ih]

/-- The lookup after one edge record: the end key holds its old members and the
start; every other key is untouched. -/
theorem get?_addEdge (mesh : Mesh) (row : Row) (k : String) :
    (addEdge mesh row).get? k =
      if k = row.get "end" then some ((mesh.preds k).add (row.get "start"))
      else mesh.get? k := by
  unfold addEdge
  by_cases hk : k = row.get "end"
  · subst hk
    simp only [if_true]
    rw [Mesh.get?_set_self]
    congr 2
    cases hg : Mesh.get? mesh (row.get "end") with
    | some s => simp [Mesh.preds, hg]
    | none => simp [Mesh.preds, hg, Mesh.get?_set_self]
  · simp only [hk, if_false]
    rw [Mesh.get?_set_ne _ _ _ _ hk]
    split
    · rfl
    · exact Mesh.get?_set_ne _ _ _ _ hk

theorem mem_preds_addEdge (mesh : Mesh) (row : Row) (k x : String) :
    x ∈ (addEdge mesh row).preds k ↔
      x ∈ mesh.preds k ∨ (row.get "start" = x ∧ row.get "end" = k) := by
  unfold Mesh.preds
  rw [get?_addEdge]
  by_cases hk : k = row.get "end"
  · simp only [hk, if_true, Option.getD_some, StrSet.mem_add, Mesh.preds]
    constructor
    · rintro (h | h)
      · exact Or.inl h
      · exact Or.inr ⟨h.symm, trivial⟩
    · rintro (h | h)
      · exact Or.inl h
      · exact Or.inr h.1.symm
  · simp only [hk, if_false]
    constructor
    · exact Or.inl
    · rintro (h | h)
      · exact h
      · exact absurd h.2.symm hk

theorem has_addEdge (mesh : Mesh) (row : Row) (k : String) :
    (addEdge mesh row).has k ↔ mesh.has k ∨ row.get "end" = k := by
  unfold Mesh.has
  rw [get?_addEdge]
  by_cases hk : k = row.get "end"
  · simp [hk]
  · have : ¬ row.get "end" = k := fun h => hk h.symm
    simp [hk, this]

/-- Membership in the graph folded from any starting mesh. -/
theorem mem_preds_foldl (records : List Row) (mesh : Mesh) (k x : String) :
    x ∈ (records.foldl addEdge mesh).preds k ↔ x ∈ mesh.preds k ∨ IsEdge records x k := by
  induction records generalizing mesh with
  | nil => simp [IsEdge]
  | cons row rest ih =>
    rw [List.foldl_cons, ih, mem_preds_addEdge]
    unfold IsEdge
    simp only [List.mem_cons, exists_eq_or_imp]
    tauto

/-- Key presence in the graph folded from any starting mesh. -/
theorem has_foldl (records : List Row) (mesh : Mesh) (k : String) :
    (records.foldl addEdge mesh).has k ↔ mesh.has k ∨ ∃ row ∈ records, row.get "end" = k := by
  induction records generalizing mesh with
  | nil => simp
  | cons row rest ih =>
    rw [List.foldl_cons, ih, has_addEdge]
    simp only [List.mem_cons, exists_eq_or_imp]
    tauto

/-- Every stored set is duplicate-free and non-empty, if that held initially. -/
theorem wf_foldl (records : List Row) (mesh : Mesh)
    (h : ∀ k s, mesh.get? k = some s → s.Nodup ∧ s ≠ []) :
    ∀ k s, (records.foldl addEdge mesh).get? k = some s → s.Nodup ∧ s ≠ [] := by
  induction records generalizing mesh with
  | nil => simpa using h
  | cons row rest ih =>
    rw [List.foldl_cons]
    apply ih
    intro k s hs
    rw [get?_addEdge] at hs
    split at hs
    · injection hs with hs
      subst hs
      refine ⟨StrSet.nodup_add _ _ ?_, StrSet.add_ne_nil _ _⟩
      unfold Mesh.preds
      cases hg : Mesh.get? mesh k with
      | none => simp
      | some s0 => simpa using (h k s0 hg).1
    · exact h k s hs

theorem mem_preds_buildMesh (records : List Row) (k x : String) :
    x ∈ (buildMesh records).preds k ↔ IsEdge records x k := by
  unfold buildMesh
  rw [mem_preds_foldl]
  simp [Mesh.preds, Mesh.get?]

theorem has_buildMesh (records : List Row) (k : String) :
    (buildMesh records).has k ↔ ∃ row ∈ records, row.get "end" = k := by
  unfold buildMesh
  rw [has_foldl]
  simp [Mesh.has, Mesh.get?]

theorem wf_buildMesh (records : List Row) (k : String) (s : StrSet)
    (h : (buildMesh records).get? k = some s) : s.Nodup ∧ s ≠ [] := by
  unfold buildMesh at h
  exact wf_foldl records [] (by simp [Mesh.get?]) k s h

theorem nodup_preds_buildMesh (records : List Row) (k : String) :
    ((buildMesh records).preds k).Nodup := by
  unfold Mesh.preds
  cases hg : Mesh.get? (buildMesh records) k with
  | none => simp
  | some s => simpa using (wf_buildMesh records k s hg).1

/-! ## The traversal: what holds of every state it passes through -/

/-- A property kept by every iteration of the loop holds of the state the loop
ends in, and the worklist is empty there. -/
theorem loop_invariant (ord : RangeOrder) (mesh : Mesh) (P : Traversal → Prop)
    (hstep : ∀ t node rest, t.stack = node :: rest → P t → P (expand ord mesh t node rest)) :
    ∀ fuel t r, loop ord mesh fuel t = some r → P t → P r ∧ r.stack = [] := by
  intro fuel
  induction fuel with
  | zero =>
    intro t r h hP
    unfold loop at h
    split at h
    · rename_i hs
      injection h with h
      subst h
      exact ⟨hP, hs⟩
    · cases h
  | succ n ih =>
    intro t r h hP
    unfold loop at h
    split at h
    · rename_i hs
      injection h with h
      subst h
      exact ⟨hP, hs⟩
    · rename_i node rest hs
      exact ih _ r h (hstep t node rest hs hP)

theorem mem_order (ord : RangeOrder) (i : Nat) (l : List String) (x : String) :
    x ∈ ord.order i l ↔ x ∈ l :=
  (ord.perm i l).mem_iff

theorem inv_seed (ord : RangeOrder) (records : List Row) (target : String) :
    Inv records target (seed ord (buildMesh records) target) where
  stack_sound := by
    intro x hx
    simp only [seed, mem_order, mem_preds_buildMesh] at hx
    exact Relation.TransGen.single hx
  set_sound := by simp [seed]
  direct := by
    intro x hx
    right
    simpa only [seed, mem_order, mem_preds_buildMesh] using hx
  closed := by simp [seed]
  set_log := by simp [seed]
  set_nodup := by simp [seed]

theorem inv_expand (ord : RangeOrder) (records : List Row) (target : String)
    (t : Traversal) (node : String) (rest : List String) (hs : t.stack = node :: rest)
    (h : Inv records target t) :
    Inv records target (expand ord (buildMesh records) t node rest) where
  stack_sound := by
    intro x hx
    simp only [expand, List.mem_append, mem_order, mem_preds_buildMesh] at hx
    have hnode : Reaches records node target := h.stack_sound node (by simp [hs])
    rcases hx with hx | hx
    · exact h.stack_sound x (by simp [hs, hx])
    · exact Relation.TransGen.head hx hnode
  set_sound := by
    intro x hx
    simp only [expand, StrSet.mem_add] at hx
    rcases hx with hx | rfl
    · exact h.set_sound x hx
    · exact h.stack_sound x (by simp [hs])
  direct := by
    intro x hx
    simp only [expand, StrSet.mem_add, List.mem_append, mem_order, mem_preds_buildMesh]
    rcases h.direct x hx with h1 | h1
    · exact Or.inl (Or.inl h1)
    · rw [hs] at h1
      rcases List.mem_cons.1 h1 with rfl | h2
      · exact Or.inl (Or.inr rfl)
      · exact Or.inr (Or.inl h2)
  closed := by
    intro y hy x hx
    simp only [expand, StrSet.mem_add, List.mem_append, mem_order, mem_preds_buildMesh] at hy ⊢
    rcases hy with hy | rfl
    · rcases h.closed y hy x hx with h1 | h1
      · exact Or.inl (Or.inl h1)
      · rw [hs] at h1
        rcases List.mem_cons.1 h1 with rfl | h2
        · exact Or.inl (Or.inr rfl)
        · exact Or.inr (Or.inl h2)
    · exact Or.inr (Or.inr hx)
  set_log := by
    intro x
    simp only [expand, StrSet.mem_add, List.mem_append, List.mem_singleton, h.set_log x]
  set_nodup := StrSet.nodup_add _ _ h.set_nodup

/-- The invariant holds of the final state of every traversal that ends. -/
theorem inv_upstream (ord : RangeOrder) (records : List Row) (target : String)
    (fuel : Nat) (r : Traversal)
    (h : upstream ord (buildMesh records) target fuel = some r) :
    Inv records target r ∧ r.stack = [] :=
  loop_invariant ord (buildMesh records) (Inv records target)
    (fun t node rest hs hP => inv_expand ord records target t node rest hs hP)
    fuel _ r h (inv_seed ord records target)

/-- At the end of a traversal the result holds exactly the nodes with a path into
the target. -/
theorem mem_result_iff (records : List Row) (target : String) (r : Traversal)
    (h : Inv records target r) (hs : r.stack = []) (v : String) :
    v ∈ r.upstreamSvcsMap ↔ Reaches records v target := by
  constructor
  · exact h.set_sound v
  · intro hv
    unfold Reaches at hv
    induction hv using Relation.TransGen.head_induction_on with
    | base hab =>
      rcases h.direct _ hab with h1 | h1
      · exact h1
      · rw [hs] at h1
        cases h1
    | ih hac _ hc =>
      rcases h.closed _ hc _ hac with h1 | h1
      · exact h1
      · rw [hs] at h1
        cases h1

/-! ## The run: which branch `main` takes -/

/-- Either the run stops before the experiment proper, or it goes on to `experiment`
with the traversal's result. -/
theorem main_cases {Chunks Stats : Type} (env : Env Chunks Stats) (fuel : Nat) :
    Early env fuel (main env fuel) ∨
    ∃ row rest records t,
      env.readCSV "csv/services" = .ok (row :: rest) ∧
      env.readCSV "csv/edges" = .ok records ∧
      upstream env.range (buildMesh records) (row.get "service") fuel = some t ∧
      main env fuel = experiment env (toString (env.nowId / second)) (row.get "service")
        (env.range.order (t.expanded.length + 1) t.upstreamSvcsMap) (csvReads Chunks Stats) := by
  unfold main
  cases h1 : env.readCSV "csv/services" with
  | error err => left; exact .servicesFailed err h1
  | ok services =>
    cases services with
    | nil => left; exact .servicesEmpty h1
    | cons row rest =>
      cases h2 : env.readCSV "csv/edges" with
      | error err => left; exact .edgesFailed row rest err h1 h2
      | ok records =>
        cases h3 : upstream env.range (buildMesh records) (row.get "service") fuel with
        | none =>
          left
          simp only [h3]
          exact .traversing row rest records h1 h2 h3
        | some t =>
          right
          exact ⟨row, rest, records, t, rfl, rfl, h3, by simp [csvReads, h3]⟩

/-- A run that stops early has made CSV reads only and has not returned. -/
theorem Early.only_reads {Chunks Stats : Type} {env : Env Chunks Stats} {fuel : Nat}
    {run : Run Chunks Stats} (h : Early env fuel run) :
    (∀ e ∈ run.trace, e = Event.readCSV "csv/services" ∨ e = Event.readCSV "csv/edges") ∧
      run.outcome ≠ Outcome.returned := by
  cases h <;> simp [csvReads]

/-- The four ways steps 3-9 can go: the Before query fails; the Before summary
fails; `ApplyFault` fails; or the run reaches the wait and goes on to `observe`. -/
theorem experiment_cases {Chunks Stats : Type} (env : Env Chunks Stats) (id faultSvc : String)
    (upstreamSvcs : List String) (tr : List (Event Chunks Stats)) :
    (∃ err, env.queryChunks id .Before upstreamSvcs (windowStart env.nowBefore) = .error err ∧
      experiment env id faultSvc upstreamSvcs tr =
        ⟨tr ++ [.queryChunks id .Before upstreamSvcs (windowStart env.nowBefore)], .fatal err⟩) ∨
    (∃ chunks err,
      env.queryChunks id .Before upstreamSvcs (windowStart env.nowBefore) = .ok chunks ∧
      env.measureSuccessRate chunks = .error err ∧
      experiment env id faultSvc upstreamSvcs tr =
        ⟨tr ++ [.queryChunks id .Before upstreamSvcs (windowStart env.nowBefore),
          .measureSuccessRate chunks], .fatal err⟩) ∨
    (∃ chunks stats err,
      env.queryChunks id .Before upstreamSvcs (windowStart env.nowBefore) = .ok chunks ∧
      env.measureSuccessRate chunks = .ok stats ∧
      env.applyFault faultSvc = some err ∧
      experiment env id faultSvc upstreamSvcs tr =
        ⟨tr ++ baselineCalls env id faultSvc upstreamSvcs chunks stats, .fatal err⟩) ∨
    (∃ chunks stats,
      env.queryChunks id .Before upstreamSvcs (windowStart env.nowBefore) = .ok chunks ∧
      env.measureSuccessRate chunks = .ok stats ∧
      env.applyFault faultSvc = none ∧
      experiment env id faultSvc upstreamSvcs tr =
        observe env id faultSvc upstreamSvcs
          (tr ++ baselineCalls env id faultSvc upstreamSvcs chunks stats ++
            [.info "Waiting 30 seconds for experiment to run...", .sleep (30 * second)])
          (env.wakeAt (30 * second))) := by
  unfold experiment
  cases hq : env.queryChunks id .Before upstreamSvcs (windowStart env.nowBefore) with
  | error err => left; exact ⟨err, rfl, rfl⟩
  | ok chunks =>
    right
    cases hm : env.measureSuccessRate chunks with
    | error err => left; exact ⟨chunks, err, rfl, hm, by simp [hm]⟩
    | ok stats =>
      right
      cases ha : env.applyFault faultSvc with
      | some err => left; exact ⟨chunks, stats, err, rfl, hm, rfl, by simp [hm, ha, baselineCalls]⟩
      | none => right; exact ⟨chunks, stats, rfl, hm, rfl, by simp [hm, ha, baselineCalls]⟩

/-- The two ways steps 7-9 can go: the After query fails and nothing follows it, or
it succeeds and `DeleteFault` is called next, followed only by the summary calls. -/
theorem observe_cases {Chunks Stats : Type} (env : Env Chunks Stats) (id faultSvc : String)
    (upstreamSvcs : List String) (tr : List (Event Chunks Stats)) (wake : Int) :
    (∃ err, env.queryChunks id .After upstreamSvcs (windowStart (env.nowAfter wake)) = .error err ∧
      observe env id faultSvc upstreamSvcs tr wake =
        ⟨tr ++ [.queryChunks id .After upstreamSvcs (windowStart (env.nowAfter wake))], .fatal err⟩) ∨
    (∃ chunks tail outcome,
      env.queryChunks id .After upstreamSvcs (windowStart (env.nowAfter wake)) = .ok chunks ∧
      (∀ e ∈ tail, e = Event.measureSuccessRate chunks ∨ (∃ msg, e = Event.info msg) ∨
        ∃ stats, e = Event.printf stats) ∧
      (outcome = .returned ∨ ∃ err, outcome = .fatal err) ∧
      observe env id faultSvc upstreamSvcs tr wake =
        ⟨tr ++ [.queryChunks id .After upstreamSvcs (windowStart (env.nowAfter wake)),
          .info "Deleting fault injection...", .deleteFault faultSvc] ++ tail, outcome⟩) := by
  unfold observe
  cases hq : env.queryChunks id .After upstreamSvcs (windowStart (env.nowAfter wake)) with
  | error err => left; exact ⟨err, rfl, rfl⟩
  | ok chunks =>
    right
    cases hd : env.deleteFault faultSvc with
    | some err => exact ⟨chunks, [], .fatal err, rfl, by simp, by simp, by simp [hd]⟩
    | none =>
      cases hm : env.measureSuccessRate chunks with
      | error err =>
        exact ⟨chunks, [.measureSuccessRate chunks], .fatal err, rfl, by simp, by simp,
          by simp [hd, hm]⟩
      | ok stats =>
        exact ⟨chunks, [.measureSuccessRate chunks, .info "Stats after fault injection:",
          .printf stats], .returned, rfl, by simp, by simp, by simp [hd, hm]⟩

/-- Every run of steps 3-9 after the two CSV reads has one of the five shapes. -/
theorem experiment_shape {Chunks Stats : Type} (env : Env Chunks Stats) (id faultSvc : String)
    (upstreamSvcs : List String) :
    Shape env id faultSvc upstreamSvcs
      (experiment env id faultSvc upstreamSvcs (csvReads Chunks Stats)) := by
  rcases experiment_cases env id faultSvc upstreamSvcs (csvReads Chunks Stats)
    with ⟨e, hq, he⟩ | ⟨c, e, hq, hm, he⟩ | ⟨c, s, e, hq, hm, ha, he⟩ | ⟨c, s, hq, hm, ha, he⟩
  · rw [he]; exact .beforeQueryFailed e hq
  · rw [he]; exact .beforeSummaryFailed c e hq hm
  · rw [he]; exact .applyFailed c s e hq hm ha
  · rw [he]
    rcases observe_cases env id faultSvc upstreamSvcs
        (csvReads Chunks Stats ++ baselineCalls env id faultSvc upstreamSvcs c s ++
          [.info "Waiting 30 seconds for experiment to run...", .sleep (30 * second)])
        (env.wakeAt (30 * second))
      with ⟨e, hqa, ho⟩ | ⟨c2, tail, out, hqa, htail, hout, ho⟩
    · rw [ho]
      have := @Shape.afterQueryFailed Chunks Stats env id faultSvc upstreamSvcs c s e hq hm ha hqa
      simpa [waitCalls] using this
    · rw [ho]
      have := @Shape.cleaned Chunks Stats env id faultSvc upstreamSvcs c s c2 tail out hq hm ha hqa htail hout
      simpa [waitCalls] using this

/-- Every run of `main` either stops early, or read both CSV files, finished the
traversal, and has one of the five experiment shapes. -/
theorem main_shape {Chunks Stats : Type} (env : Env Chunks Stats) (fuel : Nat) :
    Early env fuel (main env fuel) ∨
    ∃ row rest records t,
      env.readCSV "csv/services" = .ok (row :: rest) ∧
      env.readCSV "csv/edges" = .ok records ∧
      upstream env.range (buildMesh records) (row.get "service") fuel = some t ∧
      Shape env (toString (env.nowId / second)) (row.get "service")
        (env.range.order (t.expanded.length + 1) t.upstreamSvcsMap) (main env fuel) := by
  rcases main_cases env fuel with h | ⟨row, rest, records, t, h1, h2, h3, hm⟩
  · exact Or.inl h
  · right
    refine ⟨row, rest, records, t, h1, h2, h3, ?_⟩
    rw [hm]
    exact experiment_shape env _ _ _

/-- Summary calls and log lines are neither `ApplyFault` nor `DeleteFault` calls. -/
theorem tail_no_fault {Chunks Stats : Type} (tail : List (Event Chunks Stats)) (chunks : Chunks)
    (htail : ∀ e ∈ tail, e = Event.measureSuccessRate chunks ∨ (∃ msg, e = Event.info msg) ∨
      ∃ stats, e = Event.printf stats) :
    tail.filter Event.isApplyFault = [] ∧
      (∀ svc instant, Event.applyFault svc instant ∉ tail) ∧
      (∀ svc, Event.deleteFault svc ∉ tail) ∧
      ∀ id phase svcs start, Event.queryChunks id phase svcs start ∉ tail := by
  refine ⟨?_, ?_, ?_, ?_⟩
  · rw [List.filter_eq_nil_iff]
    intro e he
    rcases htail e he with h | ⟨_, h⟩ | ⟨_, h⟩ <;> subst h <;> simp [Event.isApplyFault]
  · intro svc instant he
    rcases htail _ he with h | ⟨_, h⟩ | ⟨_, h⟩ <;> cases h
  · intro svc he
    rcases htail _ he with h | ⟨_, h⟩ | ⟨_, h⟩ <;> cases h
  · intro id phase svcs start he
    rcases htail _ he with h | ⟨_, h⟩ | ⟨_, h⟩ <;> cases h

/-- A run that stops early calls neither `ApplyFault` nor `DeleteFault`. -/
theorem Early.noFaultCall {Chunks Stats : Type} {env : Env Chunks Stats} {fuel : Nat}
    {run : Run Chunks Stats} (h : Early env fuel run) :
    run.NoFaultCall ∧ run.trace.filter Event.isApplyFault = [] := by
  cases h <;> simp [csvReads, Run.NoFaultCall, Event.isApplyFault]

/-! ## Cycles: the worklist never empties -/

/-- Towards `target`, with `v` on a cycle: while some node that `v` reaches in zero
or more steps is on the worklist, the same holds after one more iteration. -/
theorem cycle_expand (ord : RangeOrder) (records : List Row) (v : String)
    (hcyc : Reaches records v v) (t : Traversal) (node : String) (rest : List String)
    (hs : t.stack = node :: rest)
    (h : ∃ c ∈ t.stack, Relation.ReflTransGen (IsEdge records) v c) :
    ∃ c ∈ (expand ord (buildMesh records) t node rest).stack,
      Relation.ReflTransGen (IsEdge records) v c := by
  obtain ⟨c, hc, hvc⟩ := h
  rw [hs] at hc
  rcases List.mem_cons.1 hc with rfl | hc
  · have htrans : Relation.TransGen (IsEdge records) v c := by
      rcases Relation.reflTransGen_iff_eq_or_transGen.1 hvc with h | h
      · rw [h]
        exact hcyc
      · exact h
    obtain ⟨b, hvb, hbc⟩ := Relation.TransGen.tail'_iff.1 htrans
    refine ⟨b, ?_, hvb⟩
    simp only [expand, List.mem_append, mem_order, mem_preds_buildMesh]
    exact Or.inr hbc
  · refine ⟨c, ?_, hvc⟩
    simp only [expand, List.mem_append]
    exact Or.inl hc

/-- A path from `v` into the target puts a node that `v` reaches on the initial
worklist. -/
theorem cycle_seed (ord : RangeOrder) (records : List Row) (target v : String)
    (hv : Reaches records v target) :
    ∃ c ∈ (seed ord (buildMesh records) target).stack,
      Relation.ReflTransGen (IsEdge records) v c := by
  obtain ⟨b, hvb, hbt⟩ := Relation.TransGen.tail'_iff.1 hv
  refine ⟨b, ?_, hvb⟩
  simp only [seed, mem_order, mem_preds_buildMesh]
  exact hbt

/-! ## Single paths: every node enters the worklist once -/

theorem treeInv_seed (ord : RangeOrder) (records : List Row) (target : String) :
    TreeInv records target (seed ord (buildMesh records) target) where
  sound := by
    intro x hx
    simp only [seed, List.nil_append, mem_order, mem_preds_buildMesh] at hx
    exact Relation.TransGen.single hx
  nodup := by
    simp only [seed, List.nil_append]
    exact (ord.perm 0 _).nodup_iff.2 (nodup_preds_buildMesh records target)
  origin := by
    intro x hx
    simp only [seed, List.nil_append, mem_order, mem_preds_buildMesh] at hx
    exact Or.inl hx

theorem treeInv_expand (ord : RangeOrder) (records : List Row) (target : String)
    (hsp : SinglePath records target)
    (t : Traversal) (node : String) (rest : List String) (hs : t.stack = node :: rest)
    (h : TreeInv records target t) :
    TreeInv records target (expand ord (buildMesh records) t node rest) := by
  have hnode : Reaches records node target := h.sound node (by simp [hs])
  have hold : ∀ x, x ∈ t.expanded ++ [node] ++ rest ↔ x ∈ t.expanded ++ t.stack := by
    intro x
    simp [hs]
  have hnd : (t.expanded ++ node :: rest).Nodup := by
    have := h.nodup
    rwa [hs] at this
  refine ⟨?_, ?_, ?_⟩
  · intro x hx
    simp only [expand, List.mem_append, mem_order, mem_preds_buildMesh,
      List.mem_singleton] at hx
    rcases hx with (hx | hx) | hx | hx
    · exact h.sound x (by simp [hx])
    · exact hx ▸ hnode
    · exact h.sound x (by simp [hs, hx])
    · exact Relation.TransGen.head hx hnode
  · have heq : (expand ord (buildMesh records) t node rest).expanded ++
        (expand ord (buildMesh records) t node rest).stack =
        (t.expanded ++ node :: rest) ++
          ord.order (t.expanded.length + 1) ((buildMesh records).preds node) := by
      simp [expand]
    rw [heq, List.nodup_append]
    refine ⟨hnd, (ord.perm _ _).nodup_iff.2 (nodup_preds_buildMesh records node), ?_⟩
    intro p hp hp2
    rw [mem_order, mem_preds_buildMesh] at hp2
    have hp' : p ∈ t.expanded ++ t.stack := by rw [hs]; exact hp
    rcases h.origin p hp' with ho | ⟨y, hy, ho⟩
    · have := hsp.2 p node target hp2 ho (Or.inr hnode) (Or.inl rfl)
      exact hsp.1 (this ▸ hnode)
    · have hyt : Reaches records y target := h.sound y (by simp [hy])
      have := hsp.2 p node y hp2 ho (Or.inr hnode) (Or.inr hyt)
      subst this
      rw [List.nodup_append] at hnd
      exact hnd.2.2 hy (by simp)
  · intro x hx
    simp only [expand, List.mem_append, mem_order, mem_preds_buildMesh,
      List.mem_singleton] at hx ⊢
    rcases hx with (hx | hx) | hx | hx
    · rcases h.origin x (by simp [hx]) with ho | ⟨y, hy, ho⟩
      · exact Or.inl ho
      · exact Or.inr ⟨y, Or.inl hy, ho⟩
    · rcases h.origin x (by simp [hs, hx]) with ho | ⟨y, hy, ho⟩
      · exact Or.inl ho
      · exact Or.inr ⟨y, Or.inl hy, ho⟩
    · rcases h.origin x (by simp [hs, hx]) with ho | ⟨y, hy, ho⟩
      · exact Or.inl ho
      · exact Or.inr ⟨y, Or.inl hy, ho⟩
    · exact Or.inr ⟨node, Or.inr rfl, hx⟩

/-- Under the invariant the nodes expanded or waiting are distinct starts of edge
records, so there are no more of them than records. -/
theorem treeInv_length (records : List Row) (target : String) (t : Traversal)
    (h : TreeInv records target t) :
    t.expanded.length + t.stack.length ≤ records.length := by
  have hsub : t.expanded ++ t.stack ⊆ records.map (fun row => row.get "start") := by
    intro x hx
    have hr := h.sound x hx
    unfold Reaches at hr
    have : ∃ e, IsEdge records x e := by
      cases hr using Relation.TransGen.head_induction_on with
      | base hab => exact ⟨_, hab⟩
      | ih hac _ _ => exact ⟨_, hac⟩
    obtain ⟨e, row, hrow, hstart, _⟩ := this
    exact List.mem_map.2 ⟨row, hrow, hstart⟩
  have := (h.nodup.subperm hsub).length_le
  simpa using this

/-- On a mesh with single paths the loop ends once the fuel covers the records not
yet accounted for, and the invariant holds at the end. -/
theorem treeInv_loop (ord : RangeOrder) (records : List Row) (target : String)
    (hsp : SinglePath records target) :
    ∀ fuel t, TreeInv records target t → records.length ≤ fuel + t.expanded.length →
      ∃ r, loop ord (buildMesh records) fuel t = some r := by
  intro fuel
  induction fuel with
  | zero =>
    intro t h hle
    have hlen := treeInv_length records target t h
    have : t.stack = [] := by
      apply List.eq_nil_of_length_eq_zero
      omega
    exact ⟨t, by simp [loop, this]⟩
  | succ n ih =>
    intro t h hle
    unfold loop
    cases hs : t.stack with
    | nil => exact ⟨t, rfl⟩
    | cons node rest =>
      simp only
      apply ih _ (treeInv_expand ord records target hsp t node rest hs h)
      simp only [expand, List.length_append, List.length_singleton]
      omega

/-- The edges of the chain mesh. -/
theorem isEdge_chain (s e : String) :
    IsEdge chainEdges s e ↔
      (s = "A" ∧ e = "B") ∨ (s = "B" ∧ e = "C") ∨ (s = "X" ∧ e = "C") := by
  simp only [IsEdge, chainEdges, edgeRow, List.mem_cons, List.mem_singleton,
    exists_eq_or_imp, List.not_mem_nil, false_and, exists_false, or_false, exists_eq_left]
  simp only [Row.get]
  simp [eq_comm]

/-- In the chain mesh every node has one path into "C". -/
theorem singlePath_chain : SinglePath chainEdges "C" := by
  constructor
  · intro h
    obtain ⟨b, hb, _⟩ := Relation.TransGen.head'_iff.1 h
    rw [isEdge_chain] at hb
    rcases hb with ⟨h, _⟩ | ⟨h, _⟩ | ⟨h, _⟩ <;> exact absurd h (by decide)
  · intro s e1 e2 h1 h2 _ _
    rw [isEdge_chain] at h1 h2
    rcases h1 with ⟨a1, b1⟩ | ⟨a1, b1⟩ | ⟨a1, b1⟩ <;>
      rcases h2 with ⟨a2, b2⟩ | ⟨a2, b2⟩ | ⟨a2, b2⟩ <;>
      first
      | (exact absurd (a1.symm.trans a2) (by decide))
      | (rw [b1, b2])

/-! ## The claims -/

/-- C1 (counterexample): on the chain mesh, with ApplyFault succeeding and the After
query failing with "boom", the run ends with that error; its calls contain ApplyFault
on "C" and the After query, but no DeleteFault. -/
theorem deleteFault_skipped_example :
    boomEnv.applyFault "C" = none ∧
      boomEnv.queryChunks "0" Phase.After ["B", "X", "A"] (43 * second) = .error "boom" ∧
      (main boomEnv 10).outcome = Outcome.fatal "boom" ∧
      Event.applyFault "C" (41 * second) ∈ (main boomEnv 10).trace ∧
      Event.queryChunks "0" Phase.After ["B", "X", "A"] (43 * second) ∈ (main boomEnv 10).trace ∧
      Event.deleteFault "C" ∉ (main boomEnv 10).trace :=
  ⟨rfl, rfl, by decide, by decide, by decide, by decide⟩

/-- C1 (amended): when the After-phase QueryChunks call of a run fails, the run ends
at once with that error through sugar.Fatal; ApplyFault had been called on the
fault target and had succeeded, and DeleteFault is not called at all. -/
theorem afterQuery_failure_skips_deleteFault {Chunks Stats : Type} (env : Env Chunks Stats)
    (fuel : Nat) (id : String) (svcs : List String) (start : Int) (err : GoError)
    (hcall : Event.queryChunks id Phase.After svcs start ∈ (main env fuel).trace)
    (hfail : env.queryChunks id Phase.After svcs start = .error err) :
    (main env fuel).outcome = Outcome.fatal err ∧
      (∃ svc, Event.applyFault svc env.applyAt ∈ (main env fuel).trace ∧
        env.applyFault svc = none) ∧
      ∀ svc, Event.deleteFault svc ∉ (main env fuel).trace := by
  rcases main_shape env fuel with h | ⟨row, rest, records, t, h1, h2, h3, hs⟩
  · rcases h.only_reads.1 _ hcall with h | h <;> cases h
  · generalize main env fuel = run at hcall hs ⊢
    cases hs with
    | beforeQueryFailed e hq => simp [csvReads] at hcall
    | beforeSummaryFailed c e hq hm => simp [csvReads] at hcall
    | applyFailed c s e hq hm ha => simp [csvReads, baselineCalls] at hcall
    | afterQueryFailed c s e hq hm ha hqa =>
      simp [csvReads, baselineCalls, waitCalls] at hcall
      obtain ⟨hid, hsv, hst⟩ := hcall
      subst hid hsv hst
      rw [hqa] at hfail
      injection hfail with hfail
      subst hfail
      exact ⟨rfl, ⟨row.get "service", by simp [baselineCalls], ha⟩,
        by simp [csvReads, baselineCalls, waitCalls]⟩
    | cleaned c s c2 tail out hq hm ha hqa htail hout =>
      exfalso
      simp [csvReads, baselineCalls, waitCalls] at hcall
      rcases hcall with ⟨hid, hsv, hst⟩ | hcall
      · subst hid hsv hst
        rw [hqa] at hfail
        cases hfail
      · rcases htail _ hcall with h | ⟨_, h⟩ | ⟨_, h⟩ <;> cases h

/-- C1 (witness): the amended claim at the run on the chain mesh whose After query
fails with "boom". -/
theorem afterQuery_failure_skips_deleteFault_witness :
    Event.queryChunks "0" Phase.After ["B", "X", "A"] (43 * second) ∈ (main boomEnv 10).trace ∧
    boomEnv.queryChunks "0" Phase.After ["B", "X", "A"] (43 * second) = .error "boom" ∧
    ((main boomEnv 10).outcome = Outcome.fatal "boom" ∧
      (∃ svc, Event.applyFault svc boomEnv.applyAt ∈ (main boomEnv 10).trace ∧
        boomEnv.applyFault svc = none) ∧
      ∀ svc, Event.deleteFault svc ∉ (main boomEnv 10).trace) :=
  ⟨by decide, rfl,
    afterQuery_failure_skips_deleteFault boomEnv 10 "0" ["B", "X", "A"] (43 * second) "boom"
      (by decide) rfl⟩

/-- C2: whenever the traversal of the graph built from an edge sequence ends, under
any enumeration order of the predecessor sets, the upstream set holds exactly the
nodes with a directed path of length at least one into the target. -/
theorem upstream_exact (records : List Row) (target : String) (ord : RangeOrder)
    (fuel : Nat) (r : Traversal)
    (h : upstream ord (buildMesh records) target fuel = some r) :
    ∀ v, v ∈ r.upstreamSvcsMap ↔ Reaches records v target := by
  obtain ⟨hinv, hs⟩ := inv_upstream ord records target fuel r h
  exact mem_result_iff records target r hinv hs

/-- C2 (witness): for the edges A→B, B→C, X→C and target C the traversal ends with
the set B, X, A, and those are exactly the nodes with a path into C. -/
theorem upstream_exact_witness :
    upstream reverseOrder (buildMesh chainEdges) "C" 5 = some ⟨[], ["X", "B", "A"], ["X", "B", "A"]⟩ ∧
      ∀ v, v ∈ ["X", "B", "A"] ↔ Reaches chainEdges v "C" :=
  ⟨by decide, upstream_exact chainEdges "C" reverseOrder 5 ⟨[], ["X", "B", "A"], ["X", "B", "A"]⟩
    (by decide)⟩

/-- C5: in the reverse graph built from any edge sequence, s is a member of mesh[e]
exactly when some edge has start s and end e; a key e is present exactly when some
edge ends at e; and no present key maps to an empty set. Building is total, so
self-loops and duplicate edges are accepted. -/
theorem buildMesh_spec (records : List Row) :
    (∀ s e, s ∈ (buildMesh records).preds e ↔ IsEdge records s e) ∧
    (∀ e, (buildMesh records).has e ↔ ∃ s, IsEdge records s e) ∧
    (∀ e set, (buildMesh records).get? e = some set → set ≠ []) := by
  refine ⟨fun s e => mem_preds_buildMesh records e s, ?_, ?_⟩
  · intro e
    rw [has_buildMesh]
    constructor
    · rintro ⟨row, hrow, he⟩
      exact ⟨row.get "start", row, hrow, rfl, he⟩
    · rintro ⟨s, row, hrow, _, he⟩
      exact ⟨row, hrow, he⟩
  · intro e set h
    exact (wf_buildMesh records e set h).2

/-- C5 (example): a self-loop and a duplicate edge are stored like any other edge,
the duplicate once. -/
theorem buildMesh_selfLoop_duplicate :
    buildMesh [edgeRow "A" "A", edgeRow "B" "A", edgeRow "B" "A"] = [("A", ["A", "B"])] := by
  decide

/-- C9: the built graph depends on the set of edges only: two edge sequences with
the same (start, end) pairs, in any order and multiplicity, give graphs with the
same keys and the same members under each key. -/
theorem buildMesh_edge_set (r1 r2 : List Row)
    (h : ∀ s e, IsEdge r1 s e ↔ IsEdge r2 s e) :
    (∀ e, (buildMesh r1).has e ↔ (buildMesh r2).has e) ∧
    (∀ s e, s ∈ (buildMesh r1).preds e ↔ s ∈ (buildMesh r2).preds e) := by
  constructor
  · intro e
    rw [has_buildMesh, has_buildMesh]
    constructor
    · rintro ⟨row, hrow, he⟩
      obtain ⟨row2, hrow2, _, he2⟩ := (h (row.get "start") e).1 ⟨row, hrow, rfl, he⟩
      exact ⟨row2, hrow2, he2⟩
    · rintro ⟨row, hrow, he⟩
      obtain ⟨row1, hrow1, _, he1⟩ := (h (row.get "start") e).2 ⟨row, hrow, rfl, he⟩
      exact ⟨row1, hrow1, he1⟩
  · intro s e
    rw [mem_preds_buildMesh, mem_preds_buildMesh]
    exact h s e

/-- C9 (witness): the chain edges, and the same edges reordered with one repeated. -/
theorem buildMesh_edge_set_witness :
    (∀ s e, IsEdge chainEdges s e ↔
      IsEdge [edgeRow "X" "C", edgeRow "B" "C", edgeRow "A" "B", edgeRow "X" "C"] s e) ∧
    ((∀ e, (buildMesh chainEdges).has e ↔
      (buildMesh [edgeRow "X" "C", edgeRow "B" "C", edgeRow "A" "B", edgeRow "X" "C"]).has e) ∧
    (∀ s e, s ∈ (buildMesh chainEdges).preds e ↔
      s ∈ (buildMesh [edgeRow "X" "C", edgeRow "B" "C", edgeRow "A" "B", edgeRow "X" "C"]).preds e)) :=
  have h : ∀ s e, IsEdge chainEdges s e ↔
      IsEdge [edgeRow "X" "C", edgeRow "B" "C", edgeRow "A" "B", edgeRow "X" "C"] s e := by
    intro s e
    simp only [IsEdge, chainEdges, edgeRow, List.mem_cons, List.mem_singleton,
      exists_eq_or_imp, List.not_mem_nil, false_and, exists_false, or_false]
    simp only [Row.get]
    simp
    tauto
  ⟨h, buildMesh_edge_set _ _ h⟩

/-- C6: when readCSV yields no service records, the run does not end with an error
reported through sugar.Fatal: the unguarded records[0] of line 49 panics with the
index out of range. The recorded calls stop at the read of the services file, so no
later step of the experiment runs. -/
theorem empty_services_panics {Chunks Stats : Type} (env : Env Chunks Stats) (fuel : Nat)
    (h : env.readCSV "csv/services" = .ok []) :
    (main env fuel).outcome = Outcome.panicIndexOutOfRange ∧
      (∀ err, (main env fuel).outcome ≠ Outcome.fatal err) ∧
      (main env fuel).trace = [Event.readCSV "csv/services"] := by
  unfold main
  simp [h]

/-- C6 (failing input): the run whose services file has no records. -/
theorem empty_services_panics_witness :
    noServicesEnv.readCSV "csv/services" = .ok [] ∧
      (main noServicesEnv 10).outcome = Outcome.panicIndexOutOfRange ∧
      (∀ err, (main noServicesEnv 10).outcome ≠ Outcome.fatal err) ∧
      (main noServicesEnv 10).trace = [Event.readCSV "csv/services"] :=
  ⟨rfl, empty_services_panics noServicesEnv 10 rfl⟩

/-- C7: when no edge ends at the target, the traversal ends at once, for every
enumeration order and any fuel, with an empty upstream set (the target is not
added); and a run whose target has no such edge neither panics nor loops, makes the
Before query with an empty node list, and passes an empty node list to every
QueryChunks call it makes. -/
theorem no_predecessors_empty (records : List Row) (target : String)
    (h : ∀ s, ¬ IsEdge records s target) :
    (∀ ord fuel, upstream ord (buildMesh records) target fuel = some ⟨[], [], []⟩) ∧
    ∀ (Chunks Stats : Type) (env : Env Chunks Stats) (fuel : Nat) (row : Row) (rest : List Row),
      env.readCSV "csv/services" = .ok (row :: rest) → row.get "service" = target →
      env.readCSV "csv/edges" = .ok records →
      (main env fuel).outcome ≠ Outcome.panicIndexOutOfRange ∧
      (main env fuel).outcome ≠ Outcome.looping ∧
      Event.queryChunks (toString (env.nowId / second)) Phase.Before []
        (windowStart env.nowBefore) ∈ (main env fuel).trace ∧
      ∀ id phase svcs start,
        Event.queryChunks id phase svcs start ∈ (main env fuel).trace → svcs = [] := by
  have hpreds : (buildMesh records).preds target = [] := by
    apply List.eq_nil_iff_forall_not_mem.2
    intro s hs
    exact h s ((mem_preds_buildMesh records target s).1 hs)
  have hup : ∀ ord fuel, upstream ord (buildMesh records) target fuel = some ⟨[], [], []⟩ := by
    intro ord fuel
    have hseed : seed ord (buildMesh records) target = ⟨[], [], []⟩ := by
      unfold seed
      rw [hpreds]
      have := ord.perm 0 []
      rw [List.perm_nil] at this
      rw [this]
    unfold upstream
    rw [hseed]
    cases fuel <;> simp [loop]
  refine ⟨hup, ?_⟩
  intro Chunks Stats env fuel row rest h1 htarget h2
  rcases main_shape env fuel with hearly | ⟨row', rest', records', t, h1', h2', h3, hs⟩
  · exfalso
    generalize main env fuel = run at hearly
    cases hearly with
    | servicesFailed err h1' => rw [h1] at h1'; cases h1'
    | servicesEmpty h1' => rw [h1] at h1'; cases h1'
    | edgesFailed row' rest' err h1' h2' => rw [h2] at h2'; cases h2'
    | traversing row' rest' records' h1' h2' h3 =>
      rw [h1] at h1'
      rw [h2] at h2'
      injection h1' with h1'
      injection h1' with hrow _
      injection h2' with h2'
      subst hrow h2'
      rw [htarget, hup] at h3
      cases h3
  · rw [h1] at h1'
    rw [h2] at h2'
    injection h1' with h1'
    injection h1' with hrow _
    injection h2' with h2'
    subst hrow h2'
    rw [htarget, hup] at h3
    injection h3 with h3
    subst h3
    have hnil : env.range.order (([] : List String).length + 1) [] = [] := by
      have := env.range.perm (([] : List String).length + 1) []
      rwa [List.perm_nil] at this
    simp only [hnil] at hs
    generalize main env fuel = run at hs
    cases hs with
    | beforeQueryFailed e hq =>
      refine ⟨by simp, by simp, by simp, ?_⟩
      intro id phase svcs start hmem
      simp [csvReads] at hmem
      exact hmem.2.2.1
    | beforeSummaryFailed c e hq hm =>
      refine ⟨by simp, by simp, by simp, ?_⟩
      intro id phase svcs start hmem
      simp [csvReads] at hmem
      exact hmem.2.2.1
    | applyFailed c s e hq hm ha =>
      refine ⟨by simp, by simp, by simp [baselineCalls], ?_⟩
      intro id phase svcs start hmem
      simp [csvReads, baselineCalls] at hmem
      exact hmem.2.2.1
    | afterQueryFailed c s e hq hm ha hqa =>
      refine ⟨by simp, by simp, by simp [baselineCalls], ?_⟩
      intro id phase svcs start hmem
      simp [csvReads, baselineCalls, waitCalls] at hmem
      rcases hmem with hmem | hmem <;> exact hmem.2.2.1
    | cleaned c s c2 tail out hq hm ha hqa htail hout =>
      refine ⟨?_, ?_, by simp [baselineCalls], ?_⟩
      · rcases hout with h | ⟨_, h⟩ <;> simp [h]
      · rcases hout with h | ⟨_, h⟩ <;> simp [h]
      · intro id phase svcs start hmem
        simp [csvReads, baselineCalls, waitCalls] at hmem
        rcases hmem with hmem | hmem | hmem
        · exact hmem.2.2.1
        · exact hmem.2.2.1
        · rcases htail _ hmem with h | ⟨_, h⟩ | ⟨_, h⟩ <;> cases h

/-- C7 (witness): the run with an empty edges file and target "Z": the traversal
ends with fuel 0, and both queries are made with an empty node list. -/
theorem no_predecessors_empty_witness :
    (∀ s, ¬ IsEdge [] s "Z") ∧
      upstream reverseOrder (buildMesh []) "Z" 0 = some ⟨[], [], []⟩ ∧
      ((main noEdgesEnv 0).outcome ≠ Outcome.panicIndexOutOfRange ∧
        (main noEdgesEnv 0).outcome ≠ Outcome.looping ∧
        Event.queryChunks (toString (noEdgesEnv.nowId / second)) Phase.Before []
          (windowStart noEdgesEnv.nowBefore) ∈ (main noEdgesEnv 0).trace ∧
        ∀ id phase svcs start,
          Event.queryChunks id phase svcs start ∈ (main noEdgesEnv 0).trace → svcs = []) ∧
      Event.queryChunks "0" Phase.After [] (43 * second) ∈
        (main noEdgesEnv 0).trace :=
  have h : ∀ s, ¬ IsEdge [] s "Z" := by simp [IsEdge]
  ⟨h, (no_predecessors_empty [] "Z" h).1 reverseOrder 0,
    (no_predecessors_empty [] "Z" h).2 Nat Nat noEdgesEnv 0 [("service", "Z")] [] rfl
      (by decide) rfl,
    by decide⟩

/-- C8: under a clock that never goes backwards and a Sleep that advances it by at
least the duration asked, on every run that makes the After query: the run called
ApplyFault and then Sleep for 30 seconds; the start instant handed to the After
query is not earlier than the instant of the ApplyFault call, which is not earlier
than the end of the baseline window (30 seconds after the start instant handed to
the Before query); so the baseline window ends no later than the observation window
starts. And every run whose CSV reads, traversal, Before query, Before summary and
ApplyFault succeed does make the After query. -/
theorem windows_do_not_overlap {Chunks Stats : Type} (env : Env Chunks Stats) (fuel : Nat)
    (hclock : env.ClockOk) :
    (∀ id svcs startA,
      Event.queryChunks id Phase.After svcs startA ∈ (main env fuel).trace →
      ∃ svc applyAt startB,
        Event.applyFault svc applyAt ∈ (main env fuel).trace ∧
        Event.sleep (30 * second) ∈ (main env fuel).trace ∧
        Event.queryChunks id Phase.Before svcs startB ∈ (main env fuel).trace ∧
        startB + 30 * second ≤ applyAt ∧ applyAt ≤ startA ∧
        startB + 30 * second ≤ startA) ∧
    (∀ row rest records t chunks stats,
      env.readCSV "csv/services" = .ok (row :: rest) →
      env.readCSV "csv/edges" = .ok records →
      upstream env.range (buildMesh records) (row.get "service") fuel = some t →
      env.queryChunks (toString (env.nowId / second)) Phase.Before
        (env.range.order (t.expanded.length + 1) t.upstreamSvcsMap)
        (windowStart env.nowBefore) = .ok chunks →
      env.measureSuccessRate chunks = .ok stats →
      env.applyFault (row.get "service") = none →
      ∃ startA, Event.queryChunks (toString (env.nowId / second)) Phase.After
        (env.range.order (t.expanded.length + 1) t.upstreamSvcsMap) startA ∈
          (main env fuel).trace) := by
  obtain ⟨hel, hsl⟩ := hclock
  have key : windowStart env.nowBefore + 30 * second ≤ env.applyAt ∧
      env.applyAt ≤ windowStart (env.nowAfter (env.wakeAt (30 * second))) ∧
      windowStart env.nowBefore + 30 * second ≤
        windowStart (env.nowAfter (env.wakeAt (30 * second))) := by
    have h1 := hel 1
    have h2 := hel 2
    have h3 := hel 3
    have h4 := hsl (30 * second)
    unfold windowStart Env.nowAfter Env.wakeAt Env.sleepAt Env.applyAt
    refine ⟨by linarith, by linarith, by linarith⟩
  constructor
  · intro id svcs startA hcall
    rcases main_shape env fuel with h | ⟨row, rest, records, t, h1, h2, h3, hs⟩
    · rcases h.only_reads.1 _ hcall with h | h <;> cases h
    · generalize main env fuel = run at hcall hs ⊢
      cases hs with
      | beforeQueryFailed e hq => simp [csvReads] at hcall
      | beforeSummaryFailed c e hq hm => simp [csvReads] at hcall
      | applyFailed c s e hq hm ha => simp [csvReads, baselineCalls] at hcall
      | afterQueryFailed c s e hq hm ha hqa =>
        simp [csvReads, baselineCalls, waitCalls] at hcall
        obtain ⟨hid, hsv, hst⟩ := hcall
        subst hid hsv hst
        exact ⟨row.get "service", env.applyAt, windowStart env.nowBefore,
          by simp [baselineCalls], by simp [waitCalls], by simp [baselineCalls],
          key.1, key.2.1, key.2.2⟩
      | cleaned c s c2 tail out hq hm ha hqa htail hout =>
        simp [csvReads, baselineCalls, waitCalls] at hcall
        rcases hcall with ⟨hid, hsv, hst⟩ | hcall
        · subst hid hsv hst
          exact ⟨row.get "service", env.applyAt, windowStart env.nowBefore,
            by simp [baselineCalls], by simp [waitCalls], by simp [baselineCalls],
            key.1, key.2.1, key.2.2⟩
        · rcases htail _ hcall with h | ⟨_, h⟩ | ⟨_, h⟩ <;> cases h
  · intro row rest records t chunks stats h1 h2 h3 hq hm ha
    rcases main_shape env fuel with hearly | ⟨row', rest', records', t', h1', h2', h3', hs⟩
    · exfalso
      generalize main env fuel = run at hearly
      cases hearly with
      | servicesFailed err h1' => rw [h1] at h1'; cases h1'
      | servicesEmpty h1' => rw [h1] at h1'; cases h1'
      | edgesFailed row' rest' err h1' h2' => rw [h2] at h2'; cases h2'
      | traversing row' rest' records' h1' h2' h3' =>
        rw [h1] at h1'
        rw [h2] at h2'
        injection h1' with h1'
        injection h1' with hrow _
        injection h2' with h2'
        subst hrow h2'
        rw [h3] at h3'
        cases h3'
    · rw [h1] at h1'
      rw [h2] at h2'
      injection h1' with h1'
      injection h1' with hrow _
      injection h2' with h2'
      subst hrow h2'
      rw [h3] at h3'
      injection h3' with h3'
      subst h3'
      generalize main env fuel = run at hs ⊢
      cases hs with
      | beforeQueryFailed e hq' => rw [hq] at hq'; cases hq'
      | beforeSummaryFailed c e hq' hm' =>
        rw [hq] at hq'
        injection hq' with hq'
        subst hq'
        rw [hm] at hm'
        cases hm'
      | applyFailed c s e hq' hm' ha' => rw [ha] at ha'; cases ha'
      | afterQueryFailed c s e hq' hm' ha' hqa =>
        exact ⟨windowStart (env.nowAfter (env.wakeAt (30 * second))), by simp [waitCalls]⟩
      | cleaned c s c2 tail out hq' hm' ha' hqa htail hout =>
        exact ⟨windowStart (env.nowAfter (env.wakeAt (30 * second))), by simp [waitCalls]⟩

/-- The clock of the sample environments never goes backwards and its Sleep lasts
exactly the duration asked. -/
theorem sampleEnv_clockOk (services edges : List Row) (afterQuery : Except GoError Nat) :
    (sampleEnv services edges afterQuery).ClockOk := by
  constructor
  · intro k
    simp only [sampleEnv]
    split <;> decide
  · intro d
    exact le_refl d

/-- C8 (witness): the run on the chain mesh in which every call succeeds: the Before
query gets the window starting at second 10, ApplyFault is called at second 41 and
the After query gets the window starting at second 43. -/
theorem windows_do_not_overlap_witness :
    okEnv.ClockOk ∧
    Event.queryChunks "0" Phase.Before ["B", "X", "A"] (10 * second) ∈ (main okEnv 10).trace ∧
    Event.applyFault "C" (41 * second) ∈ (main okEnv 10).trace ∧
    Event.queryChunks "0" Phase.After ["B", "X", "A"] (43 * second) ∈ (main okEnv 10).trace ∧
    ∃ svc applyAt startB,
      Event.applyFault svc applyAt ∈ (main okEnv 10).trace ∧
      Event.sleep (30 * second) ∈ (main okEnv 10).trace ∧
      Event.queryChunks "0" Phase.Before ["B", "X", "A"] startB ∈ (main okEnv 10).trace ∧
      startB + 30 * second ≤ applyAt ∧ applyAt ≤ 43 * second ∧
      startB + 30 * second ≤ 43 * second :=
  ⟨sampleEnv_clockOk _ _ _, by decide, by decide, by decide,
    (windows_do_not_overlap okEnv 10 (sampleEnv_clockOk _ _ _)).1 "0" ["B", "X", "A"]
      (43 * second) (by decide)⟩

/-- C10: on every run ApplyFault is called at most once, and each call of it comes
after a Before-phase QueryChunks call and a MeasureSuccessRate call on its chunks
that both succeeded; if reading either CSV file, the Before query or the Before
summary fails, the run calls neither ApplyFault nor DeleteFault. -/
theorem applyFault_after_baseline {Chunks Stats : Type} (env : Env Chunks Stats) (fuel : Nat) :
    ((main env fuel).trace.filter Event.isApplyFault).length ≤ 1 ∧
    (∀ svc instant, Event.applyFault svc instant ∈ (main env fuel).trace →
      ∃ id svcs start chunks stats pre post,
        (main env fuel).trace = pre ++ Event.applyFault svc instant :: post ∧
        Event.queryChunks id Phase.Before svcs start ∈ pre ∧
        env.queryChunks id Phase.Before svcs start = .ok chunks ∧
        Event.measureSuccessRate chunks ∈ pre ∧
        env.measureSuccessRate chunks = .ok stats) ∧
    (∀ err, env.readCSV "csv/services" = .error err → (main env fuel).NoFaultCall) ∧
    (∀ err, env.readCSV "csv/edges" = .error err → (main env fuel).NoFaultCall) ∧
    (∀ id svcs start err,
      Event.queryChunks id Phase.Before svcs start ∈ (main env fuel).trace →
      env.queryChunks id Phase.Before svcs start = .error err → (main env fuel).NoFaultCall) ∧
    (∀ id svcs start chunks err,
      Event.queryChunks id Phase.Before svcs start ∈ (main env fuel).trace →
      env.queryChunks id Phase.Before svcs start = .ok chunks →
      env.measureSuccessRate chunks = .error err → (main env fuel).NoFaultCall) := by
  rcases main_shape env fuel with h | ⟨row, rest, records, t, h1, h2, h3, hs⟩
  · obtain ⟨hno, hfil⟩ := h.noFaultCall
    refine ⟨by simp [hfil], ?_, fun _ _ => hno, fun _ _ => hno, fun _ _ _ _ _ _ => hno,
      fun _ _ _ _ _ _ _ _ => hno⟩
    intro svc instant hmem
    exact absurd hmem ((hno svc).1 instant)
  · generalize main env fuel = run at hs ⊢
    cases hs with
    | beforeQueryFailed e hq =>
      have hno : (⟨csvReads Chunks Stats ++
          [.queryChunks (toString (env.nowId / second)) .Before
            (env.range.order (t.expanded.length + 1) t.upstreamSvcsMap)
            (windowStart env.nowBefore)], .fatal e⟩ : Run Chunks Stats).NoFaultCall := by
        simp [Run.NoFaultCall, csvReads]
      refine ⟨by simp [csvReads, Event.isApplyFault], ?_, fun _ _ => hno, fun _ _ => hno,
        fun _ _ _ _ _ _ => hno, fun _ _ _ _ _ _ _ _ => hno⟩
      intro svc instant hmem
      exact absurd hmem ((hno svc).1 instant)
    | beforeSummaryFailed c e hq hm =>
      have hno : (⟨csvReads Chunks Stats ++
          [.queryChunks (toString (env.nowId / second)) .Before
            (env.range.order (t.expanded.length + 1) t.upstreamSvcsMap)
            (windowStart env.nowBefore), .measureSuccessRate c], .fatal e⟩ :
          Run Chunks Stats).NoFaultCall := by
        simp [Run.NoFaultCall, csvReads]
      refine ⟨by simp [csvReads, Event.isApplyFault], ?_, fun _ _ => hno, fun _ _ => hno,
        fun _ _ _ _ _ _ => hno, fun _ _ _ _ _ _ _ _ => hno⟩
      intro svc instant hmem
      exact absurd hmem ((hno svc).1 instant)
    | applyFailed c s e hq hm ha =>
      refine ⟨by simp [csvReads, baselineCalls, Event.isApplyFault], ?_, ?_, ?_, ?_, ?_⟩
      · intro svc instant hmem
        simp [csvReads, baselineCalls] at hmem
        obtain ⟨hsvc, hinst⟩ := hmem
        subst hsvc hinst
        exact ⟨_, _, _, c, s, csvReads Chunks Stats ++
          [.queryChunks (toString (env.nowId / second)) .Before
            (env.range.order (t.expanded.length + 1) t.upstreamSvcsMap)
            (windowStart env.nowBefore),
           .measureSuccessRate c, .info "Stats before fault injection:", .printf s,
           .info "Applying fault injection..."], [],
          by simp [csvReads, baselineCalls], by simp, hq, by simp, hm⟩
      · intro err herr
        rw [h1] at herr
        cases herr
      · intro err herr
        rw [h2] at herr
        cases herr
      · intro id svcs start err hmem herr
        simp [csvReads, baselineCalls] at hmem
        obtain ⟨hid, hsv, hst⟩ := hmem
        subst hid hsv hst
        rw [hq] at herr
        cases herr
      · intro id svcs start chunks err hmem hok herr
        simp [csvReads, baselineCalls] at hmem
        obtain ⟨hid, hsv, hst⟩ := hmem
        subst hid hsv hst
        rw [hq] at hok
        injection hok with hok
        subst hok
        rw [hm] at herr
        cases herr
    | afterQueryFailed c s e hq hm ha hqa =>
      refine ⟨by simp [csvReads, baselineCalls, waitCalls, Event.isApplyFault], ?_, ?_, ?_, ?_, ?_⟩
      · intro svc instant hmem
        simp [csvReads, baselineCalls, waitCalls] at hmem
        obtain ⟨hsvc, hinst⟩ := hmem
        subst hsvc hinst
        exact ⟨_, _, _, c, s, csvReads Chunks Stats ++
          [.queryChunks (toString (env.nowId / second)) .Before
            (env.range.order (t.expanded.length + 1) t.upstreamSvcsMap)
            (windowStart env.nowBefore),
           .measureSuccessRate c, .info "Stats before fault injection:", .printf s,
           .info "Applying fault injection..."],
          waitCalls env (toString (env.nowId / second))
            (env.range.order (t.expanded.length + 1) t.upstreamSvcsMap),
          by simp [csvReads, baselineCalls], by simp, hq, by simp, hm⟩
      · intro err herr
        rw [h1] at herr
        cases herr
      · intro err herr
        rw [h2] at herr
        cases herr
      · intro id svcs start err hmem herr
        simp [csvReads, baselineCalls, waitCalls] at hmem
        obtain ⟨hid, hsv, hst⟩ := hmem
        subst hid hsv hst
        rw [hq] at herr
        cases herr
      · intro id svcs start chunks err hmem hok herr
        simp [csvReads, baselineCalls, waitCalls] at hmem
        obtain ⟨hid, hsv, hst⟩ := hmem
        subst hid hsv hst
        rw [hq] at hok
        injection hok with hok
        subst hok
        rw [hm] at herr
        cases herr
    | cleaned c s c2 tail out hq hm ha hqa htail hout =>
      obtain ⟨tf, ta, td, tq⟩ := tail_no_fault tail c2 htail
      refine ⟨by simp [csvReads, baselineCalls, waitCalls, Event.isApplyFault, tf],
        ?_, ?_, ?_, ?_, ?_⟩
      · intro svc instant hmem
        simp [csvReads, baselineCalls, waitCalls, ta] at hmem
        obtain ⟨hsvc, hinst⟩ := hmem
        subst hsvc hinst
        exact ⟨_, _, _, c, s, csvReads Chunks Stats ++
          [.queryChunks (toString (env.nowId / second)) .Before
            (env.range.order (t.expanded.length + 1) t.upstreamSvcsMap)
            (windowStart env.nowBefore),
           .measureSuccessRate c, .info "Stats before fault injection:", .printf s,
           .info "Applying fault injection..."],
          waitCalls env (toString (env.nowId / second))
            (env.range.order (t.expanded.length + 1) t.upstreamSvcsMap) ++
            [.info "Deleting fault injection...", .deleteFault (row.get "service")] ++ tail,
          by simp [csvReads, baselineCalls], by simp, hq, by simp, hm⟩
      · intro err herr
        rw [h1] at herr
        cases herr
      · intro err herr
        rw [h2] at herr
        cases herr
      · intro id svcs start err hmem herr
        simp [csvReads, baselineCalls, waitCalls, tq] at hmem
        obtain ⟨hid, hsv, hst⟩ := hmem
        subst hid hsv hst
        rw [hq] at herr
        cases herr
      · intro id svcs start chunks err hmem hok herr
        simp [csvReads, baselineCalls, waitCalls, tq] at hmem
        obtain ⟨hid, hsv, hst⟩ := hmem
        subst hid hsv hst
        rw [hq] at hok
        injection hok with hok
        subst hok
        rw [hm] at herr
        cases herr

/-- C10 (example): the run on the chain mesh in which every call succeeds calls
ApplyFault once, after the Before query and its summary. -/
theorem applyFault_after_baseline_witness :
    Event.applyFault "C" (41 * second) ∈ (main okEnv 10).trace ∧
    ((main okEnv 10).trace.filter Event.isApplyFault).length = 1 ∧
    ∃ id svcs start chunks stats pre post,
      (main okEnv 10).trace = pre ++ Event.applyFault "C" (41 * second) :: post ∧
      Event.queryChunks id Phase.Before svcs start ∈ pre ∧
      okEnv.queryChunks id Phase.Before svcs start = .ok chunks ∧
      Event.measureSuccessRate chunks ∈ pre ∧
      okEnv.measureSuccessRate chunks = .ok stats :=
  ⟨by decide, by decide,
    (applyFault_after_baseline okEnv 10).2.1 "C" (41 * second) (by decide)⟩

/-- C3: when a node with a path into the target lies on a cycle (a self-loop
included), the traversal never ends: for every enumeration order and every amount
of fuel the worklist is still non-empty when the fuel is spent. -/
theorem cycle_never_terminates (records : List Row) (target v : String)
    (hv : Reaches records v target) (hcyc : Reaches records v v)
    (ord : RangeOrder) (fuel : Nat) :
    upstream ord (buildMesh records) target fuel = none := by
  cases h : upstream ord (buildMesh records) target fuel with
  | none => rfl
  | some r =>
    exfalso
    obtain ⟨⟨c, hc, _⟩, hnil⟩ := loop_invariant ord (buildMesh records)
      (fun t => ∃ c ∈ t.stack, Relation.ReflTransGen (IsEdge records) v c)
      (fun t node rest hs hP => cycle_expand ord records v hcyc t node rest hs hP)
      fuel _ r h (cycle_seed ord records target v hv)
    rw [hnil] at hc
    cases hc

/-- C3 (failing input): the single edge A→A with target A; the worklist holds A
after every iteration. -/
theorem cycle_never_terminates_witness :
    Reaches [edgeRow "A" "A"] "A" "A" ∧
      upstream storedOrder (buildMesh [edgeRow "A" "A"]) "A" 1000 = none :=
  have h : Reaches [edgeRow "A" "A"] "A" "A" :=
    Relation.TransGen.single ⟨edgeRow "A" "A", by simp, by decide, by decide⟩
  ⟨h, cycle_never_terminates [edgeRow "A" "A"] "A" "A" h h storedOrder 1000⟩

/-- C4 (counterexample): on the edges A→B, A→X, B→C, X→C with target C, the node A
is taken off the worklist and expanded twice. -/
theorem diamond_expands_twice :
    upstream storedOrder (buildMesh diamondEdges) "C" 10 =
        some ⟨[], ["B", "X", "A"], ["B", "X", "A", "A"]⟩ ∧
      List.count "A" ["B", "X", "A", "A"] = 2 := by
  decide

/-- C4 (amended): when no node has two different paths into the target, the
traversal ends within as many iterations as there are edge records, under every
enumeration order; and in every traversal that ends, each node was taken off the
worklist and expanded at most once, and the upstream set holds exactly the expanded
nodes, each once. -/
theorem single_path_expanded_once (records : List Row) (target : String)
    (hsp : SinglePath records target) (ord : RangeOrder) :
    (∃ r, upstream ord (buildMesh records) target records.length = some r) ∧
    ∀ fuel r, upstream ord (buildMesh records) target fuel = some r →
      r.stack = [] ∧ r.expanded.Nodup ∧ r.upstreamSvcsMap.Nodup ∧
      ∀ x, x ∈ r.upstreamSvcsMap ↔ x ∈ r.expanded := by
  constructor
  · exact treeInv_loop ord records target hsp records.length _
      (treeInv_seed ord records target) (by simp [seed])
  · intro fuel r h
    obtain ⟨hinv, hnil⟩ := loop_invariant ord (buildMesh records) (TreeInv records target)
      (fun t node rest hs hP => treeInv_expand ord records target hsp t node rest hs hP)
      fuel _ r h (treeInv_seed ord records target)
    obtain ⟨hset, _⟩ := inv_upstream ord records target fuel r h
    have := hinv.nodup
    rw [hnil, List.append_nil] at this
    exact ⟨hnil, this, hset.set_nodup, hset.set_log⟩

/-- C4 (witness): the chain edges A→B, B→C, X→C with target C: the traversal ends
within three iterations and expands B, X and A once each. -/
theorem single_path_expanded_once_witness :
    SinglePath chainEdges "C" ∧
      upstream storedOrder (buildMesh chainEdges) "C" 3 =
        some ⟨[], ["B", "X", "A"], ["B", "X", "A"]⟩ ∧
      ((∃ r, upstream storedOrder (buildMesh chainEdges) "C" chainEdges.length = some r) ∧
        ∀ fuel r, upstream storedOrder (buildMesh chainEdges) "C" fuel = some r →
          r.stack = [] ∧ r.expanded.Nodup ∧ r.upstreamSvcsMap.Nodup ∧
          ∀ x, x ∈ r.upstreamSvcsMap ↔ x ∈ r.expanded) :=
  ⟨singlePath_chain, by decide,
    single_path_expanded_once chainEdges "C" singlePath_chain storedOrder⟩

end Gremlin
